import Mathlib

/-!
Verification of the particle-morphing core of `MorphingParticles.tsx`.

The development shallowly embeds the source file's pure core:

* `normalise` — the bounding-box center-and-scale normalizer,
* the four pattern generators `torusKnot`, `halvorsen`, `dualHelix`, `deJong`,
* the morph state machine (`triggerMorph`, the per-frame `tick` from `useFrame`,
  and the mount-time `applyPattern`).

Machine floating-point numbers are embedded as exact rationals (`ℚ`); the
transcendental library functions `Math.sin` / `Math.cos` / `Math.PI` and the
random source `Math.random` are abstracted as parameters (`MathEnv`), since the
structural claims under scrutiny hold for every choice of those functions.
A JavaScript runtime error (reading `.clone()` of `undefined`) is embedded as
`Option.none`.
-/

/-- A 3-D point with exact rational coordinates (embedding of `THREE.Vector3`
as used by the generators: only construction, clone, sub and multiplyScalar
are exercised, all componentwise). -/
structure Point3 where
  x : ℚ
  y : ℚ
  z : ℚ
deriving DecidableEq

/-- The zero vector `new THREE.Vector3()`. -/
def Point3.zero : Point3 := ⟨0, 0, 0⟩

/-- Abstraction of the ambient JS math library: `Math.sin`, `Math.cos`,
`Math.PI`, and `Math.random`-driven index choice (the structural claims hold
for every interpretation of these). -/
structure MathEnv where
  sin : ℚ → ℚ
  cos : ℚ → ℚ
  pi : ℚ
  rand : Nat → Nat

/-! ### Bounding box (`THREE.Box3.setFromPoints`, `getSize`, `getCenter`)

`Box3.setFromPoints` expands an empty box by every point, which over a
non-empty list is a left fold of `min` / `max` per axis starting from the
first point's coordinate. -/

/-- Left fold of `min` over the `f`-coordinates of a list, seeded with `a`. -/
def foldMin (f : Point3 → ℚ) (a : ℚ) (l : List Point3) : ℚ :=
  l.foldl (fun m q => min m (f q)) a

/-- Left fold of `max` over the `f`-coordinates of a list, seeded with `a`. -/
def foldMax (f : Point3 → ℚ) (a : ℚ) (l : List Point3) : ℚ :=
  l.foldl (fun m q => max m (f q)) a

/-- Minimum `f`-coordinate of a point list (`Box3` min component;
0 on the empty list, which the code never queries). -/
def lmin (f : Point3 → ℚ) : List Point3 → ℚ
  | [] => 0
  | p :: l => foldMin f (f p) l

/-- Maximum `f`-coordinate of a point list (`Box3` max component). -/
def lmax (f : Point3 → ℚ) : List Point3 → ℚ
  | [] => 0
  | p :: l => foldMax f (f p) l

/-- One component of `box.getSize` : `max - min` along axis `f`. -/
def extent (f : Point3 → ℚ) (ps : List Point3) : ℚ :=
  lmax f ps - lmin f ps

/-- `Math.max(...box.getSize(new THREE.Vector3()).toArray())`. -/
def maxDim (ps : List Point3) : ℚ :=
  max (max (extent Point3.x ps) (extent Point3.y ps)) (extent Point3.z ps)

/-- One component of `box.getCenter` : `(min + max) / 2` along axis `f`. -/
def centre (f : Point3 → ℚ) (ps : List Point3) : ℚ :=
  (lmin f ps + lmax f ps) / 2

/-- The `|| 1` fallback applied to the maximum dimension
(`const maxDim = Math.max(...) || 1`): a zero extent is replaced by 1. -/
def fallback (m : ℚ) : ℚ := if m = 0 then 1 else m

/-- The uniform scale factor `size / maxDim` used by `normalise`. -/
def scaleK (ps : List Point3) (size : ℚ) : ℚ :=
  size / fallback (maxDim ps)

/-- The per-point affine map of `normalise`:
`p.clone().sub(centre).multiplyScalar(size / maxDim)`. -/
def normAff (ps : List Point3) (size : ℚ) (q : Point3) : Point3 :=
  ⟨(q.x - centre Point3.x ps) * scaleK ps size,
   (q.y - centre Point3.y ps) * scaleK ps size,
   (q.z - centre Point3.z ps) * scaleK ps size⟩

/-- `normalise(points, size)` from `MorphingParticles.tsx` lines 127–133:
returns `[]` on the empty list, otherwise recenters on the bounding-box
center and rescales so the largest box dimension becomes `size`
(with the `|| 1` guard against a zero extent). -/
def normalise : List Point3 → ℚ → List Point3
  | [], _ => []
  | p :: l, size => (p :: l).map (normAff (p :: l) size)

/-! ### Pattern generators -/

/-- `PARTICLE_COUNT` from the source. -/
def PARTICLE_COUNT : Nat := 15000

/-- `SPARK_COUNT` from the source. -/
def SPARK_COUNT : Nat := 2000

/-- `torusKnot(n)` (lines 135–147): the dense sample array extracted from the
external `THREE.TorusKnotGeometry(10, 3, 200, 16, 2, 3)` is abstracted as the
parameter `samples` (the library always produces a non-empty position
attribute); the generator cycles through it with wraparound
(`points[i % points.length].clone()`) and normalises the result to size 50. -/
def torusKnot (samples : List Point3) (n : Nat) : List Point3 :=
  normalise ((List.range n).map
    (fun i => samples.getD (i % samples.length) Point3.zero)) 50

/-- Integration state of the `halvorsen` loop: the three ODE variables plus
the accumulated point list `pts`. -/
structure HState where
  x : ℚ
  y : ℚ
  z : ℚ
  pts : List Point3

/-- The Halvorsen parameter `a = 1.89`. -/
def hA : ℚ := 189 / 100

/-- The Halvorsen step size `dt = 0.005`. -/
def hDt : ℚ := 1 / 200

/-- One Euler step of the Halvorsen attractor (lines 155–160): the three
derivatives are computed from the pre-step values, then all variables are
advanced together. -/
def hIntegrate (s : HState) : HState :=
  let dx := -hA * s.x - 4 * s.y - 4 * s.z - s.y * s.y
  let dy := -hA * s.y - 4 * s.z - 4 * s.x - s.z * s.z
  let dz := -hA * s.z - 4 * s.x - 4 * s.y - s.x * s.x
  { s with x := s.x + dx * hDt, y := s.y + dy * hDt, z := s.z + dz * hDt }

/-- `pts.push(new THREE.Vector3(x, y, z))` inside the `halvorsen` loop. -/
def hPush (s : HState) : HState := { s with pts := s.pts ++ [⟨s.x, s.y, s.z⟩] }

/-- The `for` loop of `halvorsen` (lines 154–165): `rem` iterations remain,
`i` is the loop counter; after integrating, a point is collected when
`i > 200 && i % 25 === 0`, and the loop breaks early once `pts.length >= n`. -/
def hLoop (n : Nat) : Nat → Nat → HState → HState
  | _, 0, s => s
  | i, rem + 1, s =>
      let s2 := if 200 < i ∧ i % 25 = 0 then hPush (hIntegrate s) else hIntegrate s
      if n ≤ s2.pts.length then s2
      else hLoop n (i + 1) rem s2

/-- The padding `while` loop of `halvorsen` (line 166), run `k` times; each
round appends a copy of an already-collected point chosen by the abstracted
random source (`Math.floor(Math.random() * pts.length)` is embedded as
`rand pts.length % pts.length`, which ranges over exactly the same indices). -/
def hPad (rand : Nat → Nat) : Nat → List Point3 → List Point3
  | 0, pts => pts
  | k + 1, pts =>
      hPad rand k (pts ++ [pts.getD (rand pts.length % pts.length) Point3.zero])

/-- `halvorsen(n)` (lines 149–168). The integration runs `n * 25` iterations
from `(0.1, 0, 0)`; the padding loop then fills up to `n` points. When the
loop collected nothing and padding is still required, the JavaScript source
evaluates `pts[Math.floor(Math.random() * 0)].clone()` — a `TypeError` on
`undefined` — embedded here as `none`. -/
def halvorsen (rand : Nat → Nat) (n : Nat) : Option (List Point3) :=
  let s := hLoop n 0 (n * 25) { x := 1 / 10, y := 0, z := 0, pts := [] }
  if s.pts = [] ∧ s.pts.length < n then none
  else some (normalise (hPad rand (n - s.pts.length) s.pts) 60)

/-- `dualHelix(n)` (lines 170–185): two interleaved helices (even index takes
radius 15 + 5, odd takes 15 − 5) over 5 turns and height 40, normalised to
size 60. -/
def dualHelix (E : MathEnv) (n : Nat) : List Point3 :=
  normalise ((List.range n).map (fun (i : Nat) =>
    let angle := ((i : ℚ) / (n : ℚ)) * E.pi * 2 * 5
    let y := ((i : ℚ) / (n : ℚ)) * 40 - 40 / 2
    let r : ℚ := 15 + (if i % 2 = 0 then 5 else -5)
    ⟨E.cos angle * r, y, E.sin angle * r⟩)) 60

/-- De Jong map coefficient `a = 1.4`. -/
def dJa : ℚ := 14 / 10

/-- De Jong map coefficient `b = -2.3`. -/
def dJb : ℚ := -23 / 10

/-- De Jong map coefficient `c = 2.4`. -/
def dJc : ℚ := 24 / 10

/-- De Jong map coefficient `d = -2.1`. -/
def dJd : ℚ := -21 / 10

/-- The iteration of `deJong` (lines 191–198): each step maps
`(x, y) ↦ (sin(a y) − cos(b x), sin(c x) − cos(d y))` and emits the updated
point together with `z = sin(x * y * 0.5)`. -/
def deJongSteps (E : MathEnv) : Nat → ℚ → ℚ → List Point3
  | 0, _, _ => []
  | k + 1, x, y =>
      let xn := E.sin (dJa * y) - E.cos (dJb * x)
      let yn := E.sin (dJc * x) - E.cos (dJd * y)
      let z := E.sin (xn * yn * (1 / 2))
      ⟨xn, yn, z⟩ :: deJongSteps E k xn yn

/-- `deJong(n)` (lines 187–200): `n` iterations of the de Jong map from seed
`(0.1, 0.1)`, normalised to size 55. -/
def deJong (E : MathEnv) (n : Nat) : List Point3 :=
  normalise (deJongSteps E n (1 / 10) (1 / 10)) 55

/-- `halvorsen` as used by the `PATTERNS` table. At the only call-site count
(`PARTICLE_COUNT = 15000`) the generator never throws (`halvorsen_some`
below), so the `getD []` default is never taken there. -/
def halvorsenTotal (rand : Nat → Nat) (n : Nat) : List Point3 :=
  (halvorsen rand n).getD []

/-- `const PATTERNS = [torusKnot, halvorsen, dualHelix, deJong]` (line 202). -/
def PATTERNS (E : MathEnv) (samples : List Point3) : List (Nat → List Point3) :=
  [torusKnot samples, halvorsenTotal E.rand, dualHelix E, deJong E]

/-! ### Counting the points collected by the `halvorsen` loop

The collection schedule of `hLoop` — a push exactly when
`i > 200 && i % 25 === 0` — is independent of the integrated values, so the
length of `pts` can be computed by pure index counting. -/

/-- Number of indices `j ∈ [i, i + rem)` with `j > 200` and `j % 25 = 0`,
i.e. the number of points the loop collects over that index window (absent
an early break). -/
def countIn : Nat → Nat → Nat
  | _, 0 => 0
  | i, rem + 1 => (if 200 < i ∧ i % 25 = 0 then 1 else 0) + countIn (i + 1) rem

/-! ### The morph state machine

State of the React component that the per-frame claims concern: the two live
position buffers (as total coordinate maps — only indices below the fixed
buffer lengths are meaningful), the `isTrans` / `prog` refs, the
`userData` triple `(from, to, next)` and the `currentPattern` state. -/

/-- Length of the main particle position buffer (`PARTICLE_COUNT * 3`). -/
def mainLen : Nat := PARTICLE_COUNT * 3

/-- Length of the sparkle position buffer (`SPARK_COUNT * 3`). -/
def sparkLen : Nat := SPARK_COUNT * 3

/-- `const morphSpeed = 0.03` (line 217). -/
def morphSpeed : ℚ := 3 / 100

/-- The easing of line 391: `p >= 1 ? 1 : 1 - Math.pow(1 - p, 3)`. -/
def eased (p : ℚ) : ℚ := if 1 ≤ p then 1 else 1 - (1 - p) ^ 3

/-- Component state: `main`/`spark` are the two mutable position arrays,
`isTrans`/`prog` the transition refs, `fromB`/`toB`/`next` the `userData`
triple, and `current` the `currentPattern` React state. -/
structure MSys where
  main : Nat → ℚ
  spark : Nat → ℚ
  isTrans : Bool
  prog : ℚ
  fromB : Nat → ℚ
  toB : Nat → ℚ
  next : Nat
  current : Nat

/-- Flat coordinate `k` of a point list, as `applyPattern`/`triggerMorph`
lay points out in a buffer: point `k / 3` (defaulting to the zero vector via
`pts[j] || new THREE.Vector3()` when the list is too short), component
`k % 3`. -/
def coordAt (pts : List Point3) (k : Nat) : ℚ :=
  let p := pts.getD (k / 3) Point3.zero
  if k % 3 = 0 then p.x else if k % 3 = 1 then p.y else p.z

/-- The main-buffer contents written by one transitioning tick (lines
398–400): `from[i] + (to[i] - from[i]) * eased` for every buffer index. -/
def interpMain (s : MSys) : Nat → ℚ := fun i =>
  if i < mainLen then s.fromB i + (s.toB i - s.fromB i) * eased (s.prog + morphSpeed)
  else s.main i

/-- The sparkle-buffer contents written by the same tick (lines 401–403):
the identical value for every sparkle index. -/
def interpSpark (s : MSys) : Nat → ℚ := fun i =>
  if i < sparkLen then s.fromB i + (s.toB i - s.fromB i) * eased (s.prog + morphSpeed)
  else s.spark i

/-- One invocation of the morph part of the `useFrame` callback (lines
388–413): when transitioning, advance `prog` by the constant `morphSpeed`,
write the eased interpolation into both buffers, and end the transition
(adopting `next` as the current pattern) once `prog >= 1`; otherwise leave
the state untouched. -/
def tick (s : MSys) : MSys :=
  if s.isTrans then
    if 1 ≤ s.prog + morphSpeed then
      { s with
        prog := s.prog + morphSpeed
        main := interpMain s
        spark := interpSpark s
        isTrans := false
        current := s.next }
    else
      { s with
        prog := s.prog + morphSpeed
        main := interpMain s
        spark := interpSpark s }
  else s

/-- `const next = (currentPattern + 1) % PATTERNS.length` (line 346). -/
def nextIdx (pats : List (Nat → List Point3)) (s : MSys) : Nat :=
  (s.current + 1) % pats.length

/-- The `to` array built by `triggerMorph` (lines 350–357): a zero-filled
`Float32Array(PARTICLE_COUNT * 3)` filled with the coordinates of
`PATTERNS[next](PARTICLE_COUNT)`. -/
def targetBuf (pats : List (Nat → List Point3)) (i : Nat) : Nat → ℚ := fun k =>
  if k < mainLen then coordAt ((pats.getD i (fun _ => [])) PARTICLE_COUNT) k else 0

/-- `triggerMorph` (lines 342–363): a no-op while a transition is active;
otherwise snapshot the live main buffer as `from`, generate and lay out the
`to` target, reset `prog`, and mark the transition active. -/
def triggerMorph (pats : List (Nat → List Point3)) (s : MSys) : MSys :=
  if s.isTrans then s
  else
    { s with
      isTrans := true
      prog := 0
      fromB := s.main
      toB := targetBuf pats (nextIdx pats s)
      next := nextIdx pats s }

/-- `applyPattern` from the mount effect (lines 314–333): writes the pattern's
coordinates into the main buffer and its first `SPARK_COUNT` points into the
sparkle buffer. -/
def applyPattern (pats : List (Nat → List Point3)) (i : Nat) (s : MSys) : MSys :=
  { s with
    main := fun k =>
      if k < mainLen then coordAt ((pats.getD i (fun _ => [])) PARTICLE_COUNT) k
      else s.main k
    spark := fun k =>
      if k < sparkLen then coordAt ((pats.getD i (fun _ => [])) PARTICLE_COUNT) k
      else s.spark k }

/-- The sparkle buffer mirrors the first `SPARK_COUNT * 3` coordinates of the
main buffer. -/
def SparkMirror (s : MSys) : Prop :=
  ∀ i, i < sparkLen → s.spark i = s.main i

/-! ### Concrete instances used by witnesses and counterexamples -/

/-- A trivial interpretation of the ambient math library. -/
def envTriv : MathEnv :=
  { sin := fun _ => 0, cos := fun _ => 0, pi := 0, rand := fun _ => 0 }

/-- A one-point stand-in for the torus-knot sample array. -/
def samplesTriv : List Point3 := [⟨1, 2, 3⟩]

/-- A concrete idle component state. -/
def sysIdle : MSys :=
  { main := fun _ => 0, spark := fun _ => 0, isTrans := false, prog := 0,
    fromB := fun _ => 0, toB := fun _ => 0, next := 0, current := 0 }

/-- A concrete mid-transition component state (one tick before the end). -/
def sysTrans : MSys :=
  { main := fun _ => 0, spark := fun _ => 0, isTrans := true, prog := 98 / 100,
    fromB := fun _ => 2, toB := fun _ => 5, next := 2, current := 1 }

/-! ### Fold lemmas for the bounding box -/

theorem foldMin_nil (f : Point3 → ℚ) (a : ℚ) : foldMin f a [] = a := rfl

theorem foldMin_cons (f : Point3 → ℚ) (a : ℚ) (q : Point3) (l : List Point3) :
    foldMin f a (q :: l) = foldMin f (min a (f q)) l := rfl

theorem foldMax_nil (f : Point3 → ℚ) (a : ℚ) : foldMax f a [] = a := rfl

theorem foldMax_cons (f : Point3 → ℚ) (a : ℚ) (q : Point3) (l : List Point3) :
    foldMax f a (q :: l) = foldMax f (max a (f q)) l := rfl

theorem foldMin_le_init (f : Point3 → ℚ) :
    ∀ (l : List Point3) (a : ℚ), foldMin f a l ≤ a := by
  intro l
  induction l with
  | nil => intro a; exact le_of_eq rfl
  | cons q l ih =>
      intro a
      rw [foldMin_cons]
      exact le_trans (ih (min a (f q))) (min_le_left _ _)

theorem foldMin_le_mem (f : Point3 → ℚ) :
    ∀ (l : List Point3) (a : ℚ) (q : Point3), q ∈ l → foldMin f a l ≤ f q := by
  intro l
  induction l with
  | nil => intro a q hq; cases hq
  | cons r l ih =>
      intro a q hq
      rw [foldMin_cons]
      rcases List.mem_cons.mp hq with h | h
      · subst h
        exact le_trans (foldMin_le_init f l _) (min_le_right _ _)
      · exact ih _ q h

theorem init_le_foldMax (f : Point3 → ℚ) :
    ∀ (l : List Point3) (a : ℚ), a ≤ foldMax f a l := by
  intro l
  induction l with
  | nil => intro a; exact le_of_eq rfl
  | cons q l ih =>
      intro a
      rw [foldMax_cons]
      exact le_trans (le_max_left _ _) (ih (max a (f q)))

theorem mem_le_foldMax (f : Point3 → ℚ) :
    ∀ (l : List Point3) (a : ℚ) (q : Point3), q ∈ l → f q ≤ foldMax f a l := by
  intro l
  induction l with
  | nil => intro a q hq; cases hq
  | cons r l ih =>
      intro a q hq
      rw [foldMax_cons]
      rcases List.mem_cons.mp hq with h | h
      · subst h
        exact le_trans (le_max_right _ _) (init_le_foldMax f l _)
      · exact ih _ q h

theorem lmin_le_mem (f : Point3 → ℚ) (ps : List Point3) (q : Point3) (hq : q ∈ ps) :
    lmin f ps ≤ f q := by
  cases ps with
  | nil => cases hq
  | cons p l =>
      rcases List.mem_cons.mp hq with h | h
      · subst h; exact foldMin_le_init f l _
      · exact foldMin_le_mem f l _ q h

theorem mem_le_lmax (f : Point3 → ℚ) (ps : List Point3) (q : Point3) (hq : q ∈ ps) :
    f q ≤ lmax f ps := by
  cases ps with
  | nil => cases hq
  | cons p l =>
      rcases List.mem_cons.mp hq with h | h
      · subst h; exact init_le_foldMax f l _
      · exact mem_le_foldMax f l _ q h

theorem lmin_le_lmax (f : Point3 → ℚ) (ps : List Point3) (h : ps ≠ []) :
    lmin f ps ≤ lmax f ps := by
  cases ps with
  | nil => exact absurd rfl h
  | cons p l =>
      exact le_trans (lmin_le_mem f (p :: l) p (List.mem_cons_self p l))
        (mem_le_lmax f (p :: l) p (List.mem_cons_self p l))

theorem extent_nonneg (f : Point3 → ℚ) (ps : List Point3) (h : ps ≠ []) :
    0 ≤ extent f ps := sub_nonneg.mpr (lmin_le_lmax f ps h)

theorem extent_le_maxDim_x (ps : List Point3) : extent Point3.x ps ≤ maxDim ps :=
  le_trans (le_max_left _ _) (le_max_left _ _)

theorem extent_le_maxDim_y (ps : List Point3) : extent Point3.y ps ≤ maxDim ps :=
  le_trans (le_max_right _ _) (le_max_left _ _)

theorem extent_le_maxDim_z (ps : List Point3) : extent Point3.z ps ≤ maxDim ps :=
  le_max_right _ _

theorem maxDim_nonneg (ps : List Point3) (h : ps ≠ []) : 0 ≤ maxDim ps :=
  le_trans (extent_nonneg Point3.x ps h) (extent_le_maxDim_x ps)

theorem fallback_pos (m : ℚ) (hm : 0 ≤ m) : 0 < fallback m := by
  unfold fallback
  split
  · exact one_pos
  · exact lt_of_le_of_ne hm (fun h => by simp_all)

theorem scaleK_nonneg (ps : List Point3) (size : ℚ) (hps : ps ≠ []) (hs : 0 ≤ size) :
    0 ≤ scaleK ps size :=
  div_nonneg hs (le_of_lt (fallback_pos _ (maxDim_nonneg ps hps)))

/-! ### How the normalizer transforms the bounding box -/

theorem min_affine (c k a b : ℚ) (hk : 0 ≤ k) :
    min ((a - c) * k) ((b - c) * k) = (min a b - c) * k := by
  rcases le_total a b with h | h
  · rw [min_eq_left h, min_eq_left (mul_le_mul_of_nonneg_right (sub_le_sub_right h c) hk)]
  · rw [min_eq_right h, min_eq_right (mul_le_mul_of_nonneg_right (sub_le_sub_right h c) hk)]

theorem max_affine (c k a b : ℚ) (hk : 0 ≤ k) :
    max ((a - c) * k) ((b - c) * k) = (max a b - c) * k := by
  rcases le_total a b with h | h
  · rw [max_eq_right h, max_eq_right (mul_le_mul_of_nonneg_right (sub_le_sub_right h c) hk)]
  · rw [max_eq_left h, max_eq_left (mul_le_mul_of_nonneg_right (sub_le_sub_right h c) hk)]

theorem foldMin_comp (f f0 : Point3 → ℚ) (g : Point3 → Point3) (φ : ℚ → ℚ)
    (hφ : ∀ a b, φ (min a b) = min (φ a) (φ b))
    (hg : ∀ p, f (g p) = φ (f0 p)) :
    ∀ (l : List Point3) (a : ℚ), foldMin f (φ a) (l.map g) = φ (foldMin f0 a l) := by
  intro l
  induction l with
  | nil => intro a; rfl
  | cons q l ih =>
      intro a
      rw [List.map_cons, foldMin_cons, foldMin_cons, hg, ← hφ, ih]

theorem foldMax_comp (f f0 : Point3 → ℚ) (g : Point3 → Point3) (φ : ℚ → ℚ)
    (hφ : ∀ a b, φ (max a b) = max (φ a) (φ b))
    (hg : ∀ p, f (g p) = φ (f0 p)) :
    ∀ (l : List Point3) (a : ℚ), foldMax f (φ a) (l.map g) = φ (foldMax f0 a l) := by
  intro l
  induction l with
  | nil => intro a; rfl
  | cons q l ih =>
      intro a
      rw [List.map_cons, foldMax_cons, foldMax_cons, hg, ← hφ, ih]

theorem lmin_map_affine (f : Point3 → ℚ) (ps : List Point3) (size : ℚ)
    (hf : ∀ q, f (normAff ps size q) = (f q - centre f ps) * scaleK ps size)
    (hps : ps ≠ []) (hk : 0 ≤ scaleK ps size) :
    lmin f (ps.map (normAff ps size)) = (lmin f ps - centre f ps) * scaleK ps size := by
  cases ps with
  | nil => exact absurd rfl hps
  | cons p l =>
      show lmin f ((p :: l).map (normAff (p :: l) size)) = _
      rw [List.map_cons]
      show foldMin f (f (normAff (p :: l) size p)) (l.map (normAff (p :: l) size)) = _
      rw [hf p]
      exact foldMin_comp f f (normAff (p :: l) size)
        (fun t => (t - centre f (p :: l)) * scaleK (p :: l) size)
        (fun a b => (min_affine _ _ a b hk).symm) hf l (f p)

theorem lmax_map_affine (f : Point3 → ℚ) (ps : List Point3) (size : ℚ)
    (hf : ∀ q, f (normAff ps size q) = (f q - centre f ps) * scaleK ps size)
    (hps : ps ≠ []) (hk : 0 ≤ scaleK ps size) :
    lmax f (ps.map (normAff ps size)) = (lmax f ps - centre f ps) * scaleK ps size := by
  cases ps with
  | nil => exact absurd rfl hps
  | cons p l =>
      show lmax f ((p :: l).map (normAff (p :: l) size)) = _
      rw [List.map_cons]
      show foldMax f (f (normAff (p :: l) size p)) (l.map (normAff (p :: l) size)) = _
      rw [hf p]
      exact foldMax_comp f f (normAff (p :: l) size)
        (fun t => (t - centre f (p :: l)) * scaleK (p :: l) size)
        (fun a b => (max_affine _ _ a b hk).symm) hf l (f p)

theorem normalise_eq_map (ps : List Point3) (size : ℚ) (hps : ps ≠ []) :
    normalise ps size = ps.map (normAff ps size) := by
  cases ps with
  | nil => exact absurd rfl hps
  | cons p l => rfl

theorem normalise_length (ps : List Point3) (size : ℚ) :
    (normalise ps size).length = ps.length := by
  cases ps with
  | nil => rfl
  | cons p l =>
      rw [normalise_eq_map (p :: l) size (List.cons_ne_nil p l), List.length_map]

theorem normalise_ne_nil (ps : List Point3) (size : ℚ) (hps : ps ≠ []) :
    normalise ps size ≠ [] := by
  intro h
  apply hps
  have := normalise_length ps size
  rw [h] at this
  exact List.length_eq_zero.mp this.symm

theorem normAff_x (ps : List Point3) (size : ℚ) (q : Point3) :
    (normAff ps size q).x = (q.x - centre Point3.x ps) * scaleK ps size := rfl

theorem normAff_y (ps : List Point3) (size : ℚ) (q : Point3) :
    (normAff ps size q).y = (q.y - centre Point3.y ps) * scaleK ps size := rfl

theorem normAff_z (ps : List Point3) (size : ℚ) (q : Point3) :
    (normAff ps size q).z = (q.z - centre Point3.z ps) * scaleK ps size := rfl

theorem extent_normalise (f : Point3 → ℚ) (ps : List Point3) (size : ℚ)
    (hf : ∀ q, f (normAff ps size q) = (f q - centre f ps) * scaleK ps size)
    (hps : ps ≠ []) (hk : 0 ≤ scaleK ps size) :
    extent f (normalise ps size) = extent f ps * scaleK ps size := by
  rw [normalise_eq_map ps size hps]
  unfold extent
  rw [lmin_map_affine f ps size hf hps hk, lmax_map_affine f ps size hf hps hk]
  ring

theorem centre_normalise (f : Point3 → ℚ) (ps : List Point3) (size : ℚ)
    (hf : ∀ q, f (normAff ps size q) = (f q - centre f ps) * scaleK ps size)
    (hps : ps ≠ []) (hk : 0 ≤ scaleK ps size) :
    centre f (normalise ps size) = 0 := by
  rw [normalise_eq_map ps size hps]
  unfold centre
  rw [lmin_map_affine f ps size hf hps hk, lmax_map_affine f ps size hf hps hk]
  unfold centre
  ring

theorem maxDim_normalise (ps : List Point3) (size : ℚ)
    (hps : ps ≠ []) (hk : 0 ≤ scaleK ps size) :
    maxDim (normalise ps size) = maxDim ps * scaleK ps size := by
  unfold maxDim
  rw [extent_normalise Point3.x ps size (fun q => rfl) hps hk,
      extent_normalise Point3.y ps size (fun q => rfl) hps hk,
      extent_normalise Point3.z ps size (fun q => rfl) hps hk]
  rw [show ∀ a b : ℚ, max (a * scaleK ps size) (b * scaleK ps size)
        = max a b * scaleK ps size from fun a b => by
      have := max_affine 0 (scaleK ps size) a b hk
      simpa using this]
  rw [show ∀ a b : ℚ, max (a * scaleK ps size) (b * scaleK ps size)
        = max a b * scaleK ps size from fun a b => by
      have := max_affine 0 (scaleK ps size) a b hk
      simpa using this]

theorem lmin_cons (f : Point3 → ℚ) (p : Point3) (l : List Point3) :
    lmin f (p :: l) = foldMin f (f p) l := rfl

theorem lmax_cons (f : Point3 → ℚ) (p : Point3) (l : List Point3) :
    lmax f (p :: l) = foldMax f (f p) l := rfl

theorem mem_coord_eq_centre (f : Point3 → ℚ) (ps : List Point3) (q : Point3)
    (hq : q ∈ ps) (h : extent f ps = 0) : f q = centre f ps := by
  have h1 : lmax f ps = lmin f ps := by
    have := sub_eq_zero.mp h
    linarith [this]
  have h2 : lmin f ps ≤ f q := lmin_le_mem f ps q hq
  have h3 : f q ≤ lmax f ps := mem_le_lmax f ps q hq
  unfold centre
  rw [h1] at h3 ⊢
  linarith

theorem extent_eq_zero_of_maxDim_zero_x (ps : List Point3) (hps : ps ≠ [])
    (h : maxDim ps = 0) : extent Point3.x ps = 0 :=
  le_antisymm (h ▸ extent_le_maxDim_x ps) (extent_nonneg _ ps hps)

theorem extent_eq_zero_of_maxDim_zero_y (ps : List Point3) (hps : ps ≠ [])
    (h : maxDim ps = 0) : extent Point3.y ps = 0 :=
  le_antisymm (h ▸ extent_le_maxDim_y ps) (extent_nonneg _ ps hps)

theorem extent_eq_zero_of_maxDim_zero_z (ps : List Point3) (hps : ps ≠ [])
    (h : maxDim ps = 0) : extent Point3.z ps = 0 :=
  le_antisymm (h ▸ extent_le_maxDim_z ps) (extent_nonneg _ ps hps)

theorem normAff_of_maxDim_zero (ps : List Point3) (size : ℚ) (q : Point3)
    (hps : ps ≠ []) (h : maxDim ps = 0) (hq : q ∈ ps) :
    normAff ps size q = Point3.zero := by
  have hx := mem_coord_eq_centre Point3.x ps q hq (extent_eq_zero_of_maxDim_zero_x ps hps h)
  have hy := mem_coord_eq_centre Point3.y ps q hq (extent_eq_zero_of_maxDim_zero_y ps hps h)
  have hz := mem_coord_eq_centre Point3.z ps q hq (extent_eq_zero_of_maxDim_zero_z ps hps h)
  unfold normAff Point3.zero
  rw [hx, hy, hz]
  simp

theorem normalise_degenerate (ps : List Point3) (size : ℚ)
    (hps : ps ≠ []) (h : maxDim ps = 0) :
    normalise ps size = ps.map (fun _ => Point3.zero) := by
  rw [normalise_eq_map ps size hps]
  exact List.map_congr_left (fun q hq => normAff_of_maxDim_zero ps size q hps h hq)

theorem foldMin_const (f : Point3 → ℚ) (a : ℚ) :
    ∀ l : List Point3, (∀ q ∈ l, f q = a) → foldMin f a l = a := by
  intro l
  induction l with
  | nil => intro _; rfl
  | cons q l ih =>
      intro h
      rw [foldMin_cons, h q (List.mem_cons_self q l), min_self]
      exact ih (fun r hr => h r (List.mem_cons_of_mem q hr))

theorem foldMax_const (f : Point3 → ℚ) (a : ℚ) :
    ∀ l : List Point3, (∀ q ∈ l, f q = a) → foldMax f a l = a := by
  intro l
  induction l with
  | nil => intro _; rfl
  | cons q l ih =>
      intro h
      rw [foldMax_cons, h q (List.mem_cons_self q l), max_self]
      exact ih (fun r hr => h r (List.mem_cons_of_mem q hr))

theorem extent_const (f : Point3 → ℚ) (ps : List Point3) (v : Point3)
    (h : ∀ q ∈ ps, q = v) : extent f ps = 0 := by
  cases ps with
  | nil => simp [extent, lmin, lmax]
  | cons p l =>
      have hp : f p = f v := by rw [h p (List.mem_cons_self p l)]
      have hl : ∀ q ∈ l, f q = f p := by
        intro q hq
        rw [h q (List.mem_cons_of_mem p hq), hp]
      unfold extent
      rw [lmin_cons, lmax_cons,
          foldMin_const f (f p) l hl, foldMax_const f (f p) l hl]
      ring

theorem maxDim_const (ps : List Point3) (v : Point3) (h : ∀ q ∈ ps, q = v) :
    maxDim ps = 0 := by
  unfold maxDim
  rw [extent_const Point3.x ps v h, extent_const Point3.y ps v h,
      extent_const Point3.z ps v h]
  simp

theorem maxDim_normalise_eq_size (ps : List Point3) (size : ℚ)
    (hps : ps ≠ []) (hs : 0 ≤ size) (hmd : maxDim ps ≠ 0) :
    maxDim (normalise ps size) = size := by
  rw [maxDim_normalise ps size hps (scaleK_nonneg ps size hps hs)]
  unfold scaleK fallback
  rw [if_neg hmd]
  field_simp

theorem normalise_map_zero (ps : List Point3) (size : ℚ) (hps : ps ≠ []) :
    normalise (ps.map (fun _ => Point3.zero)) size = ps.map (fun _ => Point3.zero) := by
  have hne : ps.map (fun _ => Point3.zero) ≠ [] := by
    intro h
    exact hps (List.map_eq_nil_iff.mp h)
  have hall : ∀ q ∈ ps.map (fun _ => Point3.zero), q = Point3.zero := by
    intro q hq
    rcases List.mem_map.mp hq with ⟨a, _, h⟩
    exact h.symm
  rw [normalise_degenerate _ size hne (maxDim_const _ Point3.zero hall), List.map_map]
  rfl

theorem normalise_idem (ps : List Point3) (size : ℚ) (hps : ps ≠ []) (hs : 0 ≤ size) :
    normalise (normalise ps size) size = normalise ps size := by
  by_cases hmd : maxDim ps = 0
  · rw [normalise_degenerate ps size hps hmd]
    exact normalise_map_zero ps size hps
  · by_cases hsz : size = 0
    · subst hsz
      have haff : ∀ q, normAff ps 0 q = Point3.zero := by
        intro q
        unfold normAff scaleK Point3.zero
        simp
      have h1 : normalise ps 0 = ps.map (fun _ => Point3.zero) := by
        rw [normalise_eq_map ps 0 hps]
        exact List.map_congr_left (fun q _ => haff q)
      rw [h1]
      exact normalise_map_zero ps 0 hps
    · have hqs : normalise ps size ≠ [] := normalise_ne_nil ps size hps
      have hk : 0 ≤ scaleK ps size := scaleK_nonneg ps size hps hs
      have hmdq : maxDim (normalise ps size) = size :=
        maxDim_normalise_eq_size ps size hps hs hmd
      have hcx : centre Point3.x (normalise ps size) = 0 :=
        centre_normalise Point3.x ps size (fun q => rfl) hps hk
      have hcy : centre Point3.y (normalise ps size) = 0 :=
        centre_normalise Point3.y ps size (fun q => rfl) hps hk
      have hcz : centre Point3.z (normalise ps size) = 0 :=
        centre_normalise Point3.z ps size (fun q => rfl) hps hk
      have hkq : scaleK (normalise ps size) size = 1 := by
        unfold scaleK fallback
        rw [hmdq, if_neg hsz]
        field_simp
      rw [normalise_eq_map (normalise ps size) size hqs]
      have haff : ∀ q, normAff (normalise ps size) size q = q := by
        intro q
        unfold normAff
        rw [hcx, hcy, hcz, hkq]
        cases q
        simp
      rw [List.map_congr_left (fun q _ => haff q)]
      exact List.map_id _

theorem countIn_zero (i : Nat) : countIn i 0 = 0 := rfl

theorem countIn_succ (i rem : Nat) :
    countIn i (rem + 1) = (if 200 < i ∧ i % 25 = 0 then 1 else 0) + countIn (i + 1) rem := rfl

theorem countIn_add : ∀ (a : Nat) (i b : Nat),
    countIn i (a + b) = countIn i a + countIn (i + a) b := by
  intro a
  induction a with
  | zero => intro i b; simp [countIn_zero]
  | succ a ih =>
      intro i b
      have h1 : a + 1 + b = (a + b) + 1 := by omega
      rw [h1, countIn_succ, countIn_succ, ih (i + 1) b]
      have h2 : i + 1 + a = i + (a + 1) := by omega
      rw [h2]
      omega

theorem countIn_eq_zero : ∀ (rem i : Nat),
    (∀ t, t < rem → ¬(200 < i + t ∧ (i + t) % 25 = 0)) → countIn i rem = 0 := by
  intro rem
  induction rem with
  | zero => intro i _; rfl
  | succ rem ih =>
      intro i h
      rw [countIn_succ]
      have h0 : ¬(200 < i ∧ i % 25 = 0) := by
        have := h 0 (Nat.succ_pos rem)
        simpa using this
      rw [if_neg h0, ih (i + 1) (fun t ht => by
        have := h (t + 1) (by omega)
        intro hc
        apply this
        constructor
        · omega
        · have : i + (t + 1) = i + 1 + t := by omega
          rw [this]
          exact hc.2)]

theorem countIn_block (m : Nat) :
    countIn (25 * m) 25 = if 8 < m then 1 else 0 := by
  have h25 : (25 : Nat) = 1 + 24 := by omega
  rw [h25, countIn_add 1 (25 * m) 24]
  have h1 : countIn (25 * m) 1 = if 200 < 25 * m ∧ (25 * m) % 25 = 0 then 1 else 0 := by
    rw [countIn_succ, countIn_zero, Nat.add_zero]
  have hz : countIn (25 * m + 1) 24 = 0 := by
    apply countIn_eq_zero
    intro t ht hc
    omega
  rw [h1, hz, Nat.add_zero]
  have hmod : (25 * m) % 25 = 0 := by omega
  by_cases hm : 8 < m
  · rw [if_pos ⟨by omega, hmod⟩, if_pos hm]
  · rw [if_neg (by omega), if_neg hm]

theorem countIn_total : ∀ n : Nat, countIn 0 (25 * n) = n - 9 := by
  intro n
  induction n with
  | zero => rfl
  | succ n ih =>
      rw [Nat.mul_succ, countIn_add (25 * n) 0 25, ih]
      have h0 : 0 + 25 * n = 25 * n := by omega
      rw [h0, countIn_block n]
      by_cases hn : 8 < n
      · rw [if_pos hn]; omega
      · rw [if_neg hn]; omega

theorem hIntegrate_pts (s : HState) : (hIntegrate s).pts = s.pts := rfl

theorem hIntegrate_len (s : HState) : (hIntegrate s).pts.length = s.pts.length := rfl

theorem hPush_integrate_len (s : HState) :
    (hPush (hIntegrate s)).pts.length = s.pts.length + 1 := by
  show ((hIntegrate s).pts ++ [_]).length = _
  rw [List.length_append, hIntegrate_len]
  rfl

theorem hLoop_length : ∀ (rem i n : Nat) (s : HState),
    s.pts.length + countIn i rem < n →
    (hLoop n i rem s).pts.length = s.pts.length + countIn i rem := by
  intro rem
  induction rem with
  | zero => intro i n s _; simp [hLoop, countIn_zero]
  | succ rem ih =>
      intro i n s h
      rw [countIn_succ] at h ⊢
      by_cases hp : 200 < i ∧ i % 25 = 0
      · rw [if_pos hp] at h ⊢
        rw [hLoop, if_pos hp, hPush_integrate_len, if_neg (by omega),
          ih (i + 1) n _ (by rw [hPush_integrate_len]; omega), hPush_integrate_len]
        omega
      · rw [if_neg hp] at h ⊢
        rw [hLoop, if_neg hp, hIntegrate_len, if_neg (by omega),
          ih (i + 1) n _ (by rw [hIntegrate_len]; omega), hIntegrate_len]
        omega

theorem hPad_length (rand : Nat → Nat) :
    ∀ (k : Nat) (pts : List Point3), (hPad rand k pts).length = pts.length + k := by
  intro k
  induction k with
  | zero => intro pts; rfl
  | succ k ih =>
      intro pts
      show (hPad rand k _).length = _
      rw [ih]
      simp
      omega

theorem hLoop_main_len (n : Nat) (hn : 0 < n) :
    (hLoop n 0 (n * 25) { x := 1 / 10, y := 0, z := 0, pts := [] }).pts.length = n - 9 := by
  have hc : countIn 0 (n * 25) = n - 9 := by
    rw [Nat.mul_comm]
    exact countIn_total n
  have h0 : (([] : List Point3)).length + countIn 0 (n * 25) < n := by
    rw [hc]
    simp
    omega
  have := hLoop_length (n * 25) 0 n { x := 1 / 10, y := 0, z := 0, pts := [] } h0
  rw [this]
  rw [hc]
  simp

/-- For `1 ≤ n ≤ 9` the integration loop of `halvorsen` never reaches the
first collecting index `i = 225`, so `pts` is empty when padding starts and
the JavaScript code throws (embedded: `none`). -/
theorem halvorsen_none (rand : Nat → Nat) (n : Nat) (h1 : 1 ≤ n) (h9 : n ≤ 9) :
    halvorsen rand n = none := by
  have hl := hLoop_main_len n (by omega)
  have hz : n - 9 = 0 := by omega
  rw [hz] at hl
  have hpts : (hLoop n 0 (n * 25) { x := 1 / 10, y := 0, z := 0, pts := [] }).pts = [] :=
    List.length_eq_zero.mp hl
  simp only [halvorsen]
  rw [if_pos ⟨hpts, by rw [hl]; omega⟩]

/-- For `n ≥ 10` the loop collects exactly `n - 9` points, padding adds the
missing 9, and the generator returns `n` points. -/
theorem halvorsen_some (rand : Nat → Nat) (n : Nat) (hn : 10 ≤ n) :
    ∃ pts, halvorsen rand n = some pts ∧ pts.length = n := by
  have hl := hLoop_main_len n (by omega)
  have hne : (hLoop n 0 (n * 25) { x := 1 / 10, y := 0, z := 0, pts := [] }).pts ≠ [] := by
    intro h
    rw [h] at hl
    simp at hl
    omega
  have heq : halvorsen rand n = some (normalise (hPad rand
      (n - (hLoop n 0 (n * 25) { x := 1 / 10, y := 0, z := 0, pts := [] }).pts.length)
      (hLoop n 0 (n * 25) { x := 1 / 10, y := 0, z := 0, pts := [] }).pts) 60) := by
    simp only [halvorsen]
    rw [if_neg (fun hc => hne hc.1)]
  refine ⟨_, heq, ?_⟩
  rw [normalise_length, hPad_length, hl]
  omega

theorem torusKnot_length (samples : List Point3) (n : Nat) :
    (torusKnot samples n).length = n := by
  rw [torusKnot, normalise_length, List.length_map, List.length_range]

theorem dualHelix_length (E : MathEnv) (n : Nat) :
    (dualHelix E n).length = n := by
  rw [dualHelix, normalise_length]
  simp

theorem deJongSteps_length (E : MathEnv) :
    ∀ (k : Nat) (x y : ℚ), (deJongSteps E k x y).length = k := by
  intro k
  induction k with
  | zero => intro x y; rfl
  | succ k ih =>
      intro x y
      show (_ :: _).length = k + 1
      rw [List.length_cons, ih]

theorem deJong_length (E : MathEnv) (n : Nat) :
    (deJong E n).length = n := by
  rw [deJong, normalise_length, deJongSteps_length]


theorem sparkLen_le_mainLen : sparkLen ≤ mainLen := by
  rw [sparkLen, mainLen, SPARK_COUNT, PARTICLE_COUNT]
  omega

/-! ### Basic tick lemmas -/

theorem tick_idle (s : MSys) (h : s.isTrans = false) : tick s = s := by
  rw [tick, h]
  simp

theorem tick_trans_run (s : MSys) (h : s.isTrans = true)
    (hp : s.prog + morphSpeed < 1) :
    tick s = { s with
      prog := s.prog + morphSpeed
      main := interpMain s
      spark := interpSpark s } := by
  rw [tick, h, if_neg (not_le.mpr hp)]
  simp

theorem tick_trans_end (s : MSys) (h : s.isTrans = true)
    (hp : 1 ≤ s.prog + morphSpeed) :
    tick s = { s with
      prog := s.prog + morphSpeed
      main := interpMain s
      spark := interpSpark s
      isTrans := false
      current := s.next } := by
  rw [tick, h, if_pos hp]
  simp

theorem iter_idle (s : MSys) (h : s.isTrans = false) :
    ∀ m : Nat, tick^[m] s = s := by
  intro m
  induction m with
  | zero => rfl
  | succ m ih =>
      rw [Function.iterate_succ_apply', ih, tick_idle s h]

theorem iter_trans (s : MSys) (h : s.isTrans = true) :
    ∀ k : Nat, s.prog + k * morphSpeed < 1 →
    (tick^[k] s).isTrans = true ∧ (tick^[k] s).prog = s.prog + k * morphSpeed ∧
    (tick^[k] s).fromB = s.fromB ∧ (tick^[k] s).toB = s.toB ∧
    (tick^[k] s).next = s.next := by
  intro k
  induction k with
  | zero =>
      intro _
      refine ⟨h, ?_, rfl, rfl, rfl⟩
      simp
  | succ k ih =>
      intro hk
      have hms : (0 : ℚ) ≤ morphSpeed := by norm_num [morphSpeed]
      have hk' : s.prog + k * morphSpeed < 1 := by
        have : (k : ℚ) * morphSpeed ≤ (k + 1 : ℚ) * morphSpeed := by nlinarith
        push_cast at hk
        nlinarith
      obtain ⟨h1, h2, h3, h4, h5⟩ := ih hk'
      have hrun := tick_trans_run (tick^[k] s) h1 (by
        rw [h2]
        push_cast at hk ⊢
        nlinarith)
      rw [Function.iterate_succ_apply', hrun]
      refine ⟨h1, ?_, h3, h4, h5⟩
      show (tick^[k] s).prog + morphSpeed = _
      rw [h2]
      push_cast
      ring

theorem eased_end (p : ℚ) (hp : 1 ≤ p) : eased p = 1 := by
  rw [eased, if_pos hp]

theorem interpMain_end (s : MSys) (hp : 1 ≤ s.prog + morphSpeed)
    (i : Nat) (hi : i < mainLen) : interpMain s i = s.toB i := by
  simp only [interpMain]
  rw [if_pos hi, eased_end _ hp]
  ring

theorem tick_prog_mono (s : MSys) : s.prog ≤ (tick s).prog := by
  by_cases ht : s.isTrans = true
  · have hms : (0 : ℚ) ≤ morphSpeed := by norm_num [morphSpeed]
    by_cases hp : 1 ≤ s.prog + morphSpeed
    · rw [tick_trans_end s ht hp]
      simpa using hms
    · rw [tick_trans_run s ht (not_le.mp hp)]
      simpa using hms
  · rw [tick_idle s (by simpa using ht)]

theorem tick_prog_step (s : MSys) (h : s.isTrans = true) :
    (tick s).prog = s.prog + morphSpeed := by
  by_cases hp : 1 ≤ s.prog + morphSpeed
  · rw [tick_trans_end s h hp]
  · rw [tick_trans_run s h (not_le.mp hp)]

theorem trigger_isTrans (pats : List (Nat → List Point3)) (s : MSys)
    (h : s.isTrans = false) : (triggerMorph pats s).isTrans = true := by
  simp [triggerMorph, h]

theorem trigger_prog (pats : List (Nat → List Point3)) (s : MSys)
    (h : s.isTrans = false) : (triggerMorph pats s).prog = 0 := by
  simp [triggerMorph, h]

theorem trigger_toB (pats : List (Nat → List Point3)) (s : MSys)
    (h : s.isTrans = false) :
    (triggerMorph pats s).toB = targetBuf pats (nextIdx pats s) := by
  simp [triggerMorph, h]

theorem trigger_fromB (pats : List (Nat → List Point3)) (s : MSys)
    (h : s.isTrans = false) : (triggerMorph pats s).fromB = s.main := by
  simp [triggerMorph, h]

theorem trigger_next (pats : List (Nat → List Point3)) (s : MSys)
    (h : s.isTrans = false) : (triggerMorph pats s).next = nextIdx pats s := by
  simp [triggerMorph, h]

theorem trigger_buffers (pats : List (Nat → List Point3)) (s : MSys) :
    (triggerMorph pats s).main = s.main ∧ (triggerMorph pats s).spark = s.spark := by
  by_cases ht : s.isTrans = true
  · rw [triggerMorph, if_pos ht]
    exact ⟨rfl, rfl⟩
  · rw [triggerMorph, if_neg ht]
    exact ⟨rfl, rfl⟩

/-- After a trigger from idle, 33 ticks keep the transition running with
`prog = 0.99`, and the 34th tick finishes it: the transition ends, `prog`
lands on `1.02`, the pattern index is adopted, and the main buffer holds the
`to` target exactly. -/
theorem run34 (pats : List (Nat → List Point3)) (s : MSys) (h : s.isTrans = false) :
    (tick^[34] (triggerMorph pats s)).isTrans = false ∧
    (tick^[34] (triggerMorph pats s)).prog = 51 / 50 ∧
    (tick^[34] (triggerMorph pats s)).current = nextIdx pats s ∧
    ∀ i, i < mainLen →
      (tick^[34] (triggerMorph pats s)).main i = targetBuf pats (nextIdx pats s) i := by
  have h1 := trigger_isTrans pats s h
  have h2 := trigger_prog pats s h
  obtain ⟨t1, t2, t3, t4, t5⟩ := iter_trans (triggerMorph pats s) h1 33 (by
    rw [h2]
    norm_num [morphSpeed])
  have hp33 : (tick^[33] (triggerMorph pats s)).prog = 99 / 100 := by
    rw [t2, h2]
    norm_num [morphSpeed]
  have hend : 1 ≤ (tick^[33] (triggerMorph pats s)).prog + morphSpeed := by
    rw [hp33]
    norm_num [morphSpeed]
  have h34 : tick^[34] (triggerMorph pats s) = tick (tick^[33] (triggerMorph pats s)) :=
    Function.iterate_succ_apply' tick 33 (triggerMorph pats s)
  rw [h34, tick_trans_end _ t1 hend]
  refine ⟨rfl, ?_, ?_, ?_⟩
  · show (tick^[33] (triggerMorph pats s)).prog + morphSpeed = 51 / 50
    rw [hp33]
    norm_num [morphSpeed]
  · show (tick^[33] (triggerMorph pats s)).next = nextIdx pats s
    rw [t5, trigger_next pats s h]
  · intro i hi
    show interpMain (tick^[33] (triggerMorph pats s)) i = _
    rw [interpMain_end _ hend i hi, t4, trigger_toB pats s h]

/-! ### Sparkle-mirror invariant lemmas -/

theorem sparkMirror_applyPattern (pats : List (Nat → List Point3)) (i : Nat) (s : MSys) :
    SparkMirror (applyPattern pats i s) := by
  intro j hj
  have hjm : j < mainLen := lt_of_lt_of_le hj sparkLen_le_mainLen
  show (if j < sparkLen then _ else _) = (if j < mainLen then _ else _)
  rw [if_pos hj, if_pos hjm]

theorem sparkMirror_trigger (pats : List (Nat → List Point3)) (s : MSys)
    (h : SparkMirror s) : SparkMirror (triggerMorph pats s) := by
  intro j hj
  rw [(trigger_buffers pats s).1, (trigger_buffers pats s).2]
  exact h j hj

theorem sparkMirror_tick (s : MSys) (h : SparkMirror s) : SparkMirror (tick s) := by
  intro j hj
  have hjm : j < mainLen := lt_of_lt_of_le hj sparkLen_le_mainLen
  by_cases ht : s.isTrans = true
  · by_cases hp : 1 ≤ s.prog + morphSpeed
    · rw [tick_trans_end s ht hp]
      show interpSpark s j = interpMain s j
      simp only [interpSpark, interpMain]
      rw [if_pos hj, if_pos hjm]
    · rw [tick_trans_run s ht (not_le.mp hp)]
      show interpSpark s j = interpMain s j
      simp only [interpSpark, interpMain]
      rw [if_pos hj, if_pos hjm]
  · rw [tick_idle s (by simpa using ht)]
    exact h j hj

/-! ### The claims -/

/-- C1: the claim requires that no generator throws for any N ≥ 1 and that
the padding step always has a collected point available. The code violates
it: for every 1 ≤ N ≤ 9 the `halvorsen` integration loop (N·25 ≤ 225
iterations) never reaches its first collecting index i = 225, so `pts` is
empty when padding starts and `pts[...].clone()` throws (embedded `none`). -/
theorem C1_halvorsen_pad_throws (rand : Nat → Nat) (n : Nat)
    (h1 : 1 ≤ n) (h9 : n ≤ 9) : halvorsen rand n = none :=
  halvorsen_none rand n h1 h9

theorem C1_halvorsen_pad_throws_witness : halvorsen (fun _ => 0) 1 = none :=
  C1_halvorsen_pad_throws (fun _ => 0) 1 (by decide) (by decide)

/-- C2: on every per-frame tick — transitioning or not — the sparkle buffer
equals the first `SPARK_COUNT * 3` coordinates of the main buffer: the mirror
property is established by the mount-time `applyPattern`, and preserved by
`triggerMorph` and by every `tick` (a transitioning tick rewrites both
buffers with the identical value; an idle tick touches neither). -/
theorem C2_sparkle_mirror :
    (∀ (pats : List (Nat → List Point3)) (i : Nat) (s : MSys),
      SparkMirror (applyPattern pats i s)) ∧
    (∀ (pats : List (Nat → List Point3)) (s : MSys),
      SparkMirror s → SparkMirror (triggerMorph pats s)) ∧
    (∀ s : MSys, SparkMirror s → SparkMirror (tick s)) :=
  ⟨sparkMirror_applyPattern, sparkMirror_trigger, sparkMirror_tick⟩

theorem C2_sparkle_mirror_witness :
    SparkMirror sysIdle ∧ SparkMirror (tick sysIdle) :=
  ⟨fun _ _ => rfl, C2_sparkle_mirror.2.2 sysIdle (fun _ _ => rfl)⟩

/-- C3: at a tick where the incremented progress reaches or exceeds 1, the
eased value is clamped to exactly 1 and every main-buffer coordinate is
written as `from[i] + (to[i] - from[i]) * 1`, i.e. equals the `to` target
exactly. -/
theorem C3_endpoint_exact (s : MSys) (h : s.isTrans = true)
    (hp : 1 ≤ s.prog + morphSpeed) :
    eased (s.prog + morphSpeed) = 1 ∧
    ∀ i, i < mainLen → (tick s).main i = s.toB i := by
  refine ⟨eased_end _ hp, ?_⟩
  intro i hi
  rw [tick_trans_end s h hp]
  exact interpMain_end s hp i hi

theorem C3_endpoint_exact_witness :
    eased (sysTrans.prog + morphSpeed) = 1 ∧ (tick sysTrans).main 0 = sysTrans.toB 0 := by
  have h := C3_endpoint_exact sysTrans rfl (by norm_num [sysTrans, morphSpeed])
  exact ⟨h.1, h.2 0 (by norm_num [mainLen, PARTICLE_COUNT])⟩

/-- C4: `dualHelix`, `deJong`, and `torusKnot` (whose sample array, supplied
by the geometry library, is non-empty) return exactly N points for every
N ≥ 1 — in the exact rational embedding no coordinate can be NaN or
undefined. The claim nevertheless fails on the code: `halvorsen` throws for
1 ≤ N ≤ 9 instead of returning N points (it does return exactly N points
once N ≥ 10). -/
theorem C4_generator_counts (E : MathEnv) (samples : List Point3)
    (rand : Nat → Nat) (n : Nat) (_hn : 1 ≤ n) (_hs : samples ≠ []) :
    (torusKnot samples n).length = n ∧
    (dualHelix E n).length = n ∧
    (deJong E n).length = n ∧
    (10 ≤ n → ∃ pts, halvorsen rand n = some pts ∧ pts.length = n) ∧
    halvorsen rand 1 = none :=
  ⟨torusKnot_length samples n, dualHelix_length E n, deJong_length E n,
   fun h10 => halvorsen_some rand n h10,
   halvorsen_none rand 1 le_rfl (by omega)⟩

theorem C4_generator_counts_witness :
    (torusKnot samplesTriv 10).length = 10 ∧ halvorsen (fun _ => 0) 1 = none := by
  have h := C4_generator_counts envTriv samplesTriv (fun _ => 0) 10 (by decide) (by decide)
  exact ⟨h.1, h.2.2.2.2⟩

/-- C5: end-to-end: starting idle with pattern index 0, after one trigger and
`ceil(1/0.03) = 34` ticks the machine is idle, the current pattern index is 1,
and the main buffer equals exactly the flattened coordinates of
`PATTERNS[1](PARTICLE_COUNT)` — the halvorsen generator's output, which is by
definition `normalise(<integrated-and-padded points>, 60)`. -/
theorem C5_end_to_end (E : MathEnv) (samples : List Point3) (s : MSys)
    (hidle : s.isTrans = false) (hcur : s.current = 0) :
    (tick^[34] (triggerMorph (PATTERNS E samples) s)).isTrans = false ∧
    (tick^[34] (triggerMorph (PATTERNS E samples) s)).current = 1 ∧
    ∃ pts, halvorsen E.rand PARTICLE_COUNT = some pts ∧ pts.length = PARTICLE_COUNT ∧
      ∀ i, i < mainLen →
        (tick^[34] (triggerMorph (PATTERNS E samples) s)).main i = coordAt pts i := by
  obtain ⟨r1, r2, r3, r4⟩ := run34 (PATTERNS E samples) s hidle
  have hnext : nextIdx (PATTERNS E samples) s = 1 := by
    rw [nextIdx, hcur]
    rfl
  obtain ⟨pts, hsome, hlen⟩ :=
    halvorsen_some E.rand PARTICLE_COUNT (by norm_num [PARTICLE_COUNT])
  refine ⟨r1, by rw [r3, hnext], pts, hsome, hlen, ?_⟩
  intro i hi
  rw [r4 i hi, hnext]
  simp only [targetBuf]
  rw [if_pos hi]
  have hget : (PATTERNS E samples).getD 1 (fun _ => []) = halvorsenTotal E.rand := rfl
  rw [hget, halvorsenTotal, hsome]
  rfl

theorem C5_end_to_end_witness :
    (tick^[34] (triggerMorph (PATTERNS envTriv samplesTriv) sysIdle)).isTrans = false ∧
    (tick^[34] (triggerMorph (PATTERNS envTriv samplesTriv) sysIdle)).current = 1 :=
  ⟨(C5_end_to_end envTriv samplesTriv sysIdle rfl rfl).1,
   (C5_end_to_end envTriv samplesTriv sysIdle rfl rfl).2.1⟩

/-- C6 counterexample: from a concrete idle start, the progress values over
the trigger tick and the following 34 ticks are 0, 0.03·k (k ≤ 33) and then
1.02 — never exactly 1, refuting "reaches exactly 1 within ceil(1/fixedStep)
ticks" (progress overshoots to 1.02; only the eased value is clamped to 1). -/
theorem C6_progress_never_exactly_one :
    (((List.range 35).map (fun k =>
      (tick^[k] (triggerMorph (PATTERNS envTriv samplesTriv) sysIdle)).prog)).all
      (fun q => q != 1)) = true := by
  rw [List.all_eq_true]
  intro q hq
  rcases List.mem_map.mp hq with ⟨k, hk, rfl⟩
  rw [bne_iff_ne]
  have hk35 : k < 35 := List.mem_range.mp hk
  have h1 : (triggerMorph (PATTERNS envTriv samplesTriv) sysIdle).isTrans = true :=
    trigger_isTrans _ _ rfl
  have h2 : (triggerMorph (PATTERNS envTriv samplesTriv) sysIdle).prog = 0 :=
    trigger_prog _ _ rfl
  rcases Nat.lt_or_ge k 34 with hlt | hge
  · have hc : (k : ℚ) ≤ 33 := by exact_mod_cast Nat.le_of_lt_succ hlt
    have hbound : (triggerMorph (PATTERNS envTriv samplesTriv) sysIdle).prog
        + k * morphSpeed < 1 := by
      rw [h2, morphSpeed]
      nlinarith
    obtain ⟨_, hp, _, _, _⟩ := iter_trans _ h1 k hbound
    rw [hp, h2]
    intro hcon
    rw [morphSpeed] at hcon
    have h3k : ((3 * k : ℕ) : ℚ) = 100 := by push_cast; linarith
    have h3k2 : (3 * k : ℕ) = 100 := by exact_mod_cast h3k
    omega
  · have hk34 : k = 34 := by omega
    subst hk34
    rw [(run34 (PATTERNS envTriv samplesTriv) sysIdle rfl).2.1]
    norm_num

/-- C6 (amended): morph progress is non-decreasing across ticks, advances by
the constant `morphSpeed = 0.03` on every transitioning tick (never
delta-time-scaled), and within `ceil(1/0.03) = 34` ticks of a trigger the
transition has ended with progress having reached *or exceeded* 1 (it lands
on 1.02; the eased value, not `prog`, is what is clamped to exactly 1). -/
theorem C6_progress_monotone_bounded :
    (∀ s : MSys, s.prog ≤ (tick s).prog) ∧
    (∀ s : MSys, s.isTrans = true → (tick s).prog = s.prog + morphSpeed) ∧
    (∀ (pats : List (Nat → List Point3)) (s : MSys), s.isTrans = false →
      (tick^[34] (triggerMorph pats s)).isTrans = false ∧
      1 ≤ (tick^[34] (triggerMorph pats s)).prog) := by
  refine ⟨tick_prog_mono, tick_prog_step, ?_⟩
  intro pats s h
  obtain ⟨r1, r2, _, _⟩ := run34 pats s h
  refine ⟨r1, ?_⟩
  rw [r2]
  norm_num

theorem C6_progress_monotone_bounded_witness :
    (tick^[34] (triggerMorph (PATTERNS envTriv samplesTriv) sysIdle)).isTrans = false ∧
    1 ≤ (tick^[34] (triggerMorph (PATTERNS envTriv samplesTriv) sysIdle)).prog :=
  C6_progress_monotone_bounded.2.2 (PATTERNS envTriv samplesTriv) sysIdle rfl

/-- C7: for a non-empty input and positive target size, the output's
bounding-box maximum dimension equals the target size whenever the input
extent is nonzero (exactly, in the rational embedding); and a single point
repeated (any number of times) normalises to the zero vector repeated, the
`|| 1` fallback preventing any division by zero. -/
theorem C7_normalise_bbox (ps : List Point3) (size : ℚ)
    (hps : ps ≠ []) (hs : 0 < size) :
    (maxDim ps ≠ 0 → maxDim (normalise ps size) = size) ∧
    (∀ (p : Point3) (k : Nat),
      normalise (List.replicate k p) size = List.replicate k Point3.zero) := by
  refine ⟨fun hmd => maxDim_normalise_eq_size ps size hps (le_of_lt hs) hmd, ?_⟩
  intro p k
  cases k with
  | zero => rfl
  | succ k =>
      have hne : List.replicate (k + 1) p ≠ [] := by simp
      have hall : ∀ q ∈ List.replicate (k + 1) p, q = p :=
        fun q hq => List.eq_of_mem_replicate hq
      rw [normalise_degenerate _ size hne (maxDim_const _ p hall), List.map_replicate]

theorem C7_normalise_bbox_witness :
    maxDim (normalise [⟨0, 0, 0⟩, ⟨2, 0, 0⟩] 5) = 5 ∧
    normalise (List.replicate 3 (⟨1, 1, 1⟩ : Point3)) 5 = List.replicate 3 Point3.zero := by
  have h := C7_normalise_bbox [⟨0, 0, 0⟩, ⟨2, 0, 0⟩] 5 (by decide) (by norm_num)
  refine ⟨h.1 ?_, h.2 ⟨1, 1, 1⟩ 3⟩
  norm_num [maxDim, extent, lmax, lmin, foldMax, foldMin, List.foldl]

/-- C8 counterexample: the claim quantifies over every size `s`; with the
negative size −1 the normalizer is not idempotent — the second application
flips every point around the origin. -/
theorem C8_not_idempotent_for_negative_size :
    normalise (normalise [⟨0, 0, 0⟩, ⟨1, 0, 0⟩] (-1)) (-1) ≠
      normalise [⟨0, 0, 0⟩, ⟨1, 0, 0⟩] (-1) := by
  have h1 : normalise [(⟨0, 0, 0⟩ : Point3), ⟨1, 0, 0⟩] (-1) =
      [⟨1 / 2, 0, 0⟩, ⟨-1 / 2, 0, 0⟩] := by
    norm_num [normalise, normAff, scaleK, fallback, maxDim, extent, centre,
      lmin, lmax, foldMax, foldMin, List.foldl]
  have h2 : normalise [(⟨1 / 2, 0, 0⟩ : Point3), ⟨-1 / 2, 0, 0⟩] (-1) =
      [⟨-1 / 2, 0, 0⟩, ⟨1 / 2, 0, 0⟩] := by
    norm_num [normalise, normAff, scaleK, fallback, maxDim, extent, centre,
      lmin, lmax, foldMax, foldMin, List.foldl]
  rw [h1, h2]
  intro hcon
  rw [List.cons.injEq] at hcon
  have := hcon.1
  rw [Point3.mk.injEq] at this
  have hx := this.1
  norm_num at hx

/-- C8 (amended): for every non-empty point set and every *non-negative*
target size, normalising twice equals normalising once, exactly (the rational
embedding has no floating-point noise); for negative sizes the property fails
(see the counterexample). -/
theorem C8_idempotent_nonneg (ps : List Point3) (size : ℚ)
    (hps : ps ≠ []) (hs : 0 ≤ size) :
    normalise (normalise ps size) size = normalise ps size :=
  normalise_idem ps size hps hs

theorem C8_idempotent_nonneg_witness :
    normalise (normalise [⟨0, 0, 0⟩, ⟨1, 0, 0⟩] 2) 2 =
      normalise [⟨0, 0, 0⟩, ⟨1, 0, 0⟩] 2 :=
  C8_idempotent_nonneg [⟨0, 0, 0⟩, ⟨1, 0, 0⟩] 2 (by decide) (by norm_num)

/-- C9: invoking the trigger while a transition is active is a no-op — the
whole state, including the in-flight `from`, `to`, `next` and progress, is
unchanged, so the transition still ends at the originally scheduled target. -/
theorem C9_trigger_reentrant_noop (pats : List (Nat → List Point3)) (s : MSys)
    (h : s.isTrans = true) : triggerMorph pats s = s := by
  rw [triggerMorph, if_pos h]

theorem C9_trigger_reentrant_noop_witness :
    sysTrans.isTrans = true ∧ triggerMorph [] sysTrans = sysTrans :=
  ⟨rfl, C9_trigger_reentrant_noop [] sysTrans rfl⟩

/-- C10: the normalizer maps the empty point set to the empty point set —
the `points.length === 0` guard returns before any bounding box is computed,
so no exception arises despite the stated length ≥ 1 precondition. -/
theorem C10_normalise_empty (size : ℚ) : normalise [] size = [] := rfl
